import Mathlib

/-!
Verification of the multi-agent stock recommendation service
(`src/graph_app.py`, `src/api.py`): a shallow embedding of the
result-extraction, timeline-building and endpoint post-processing logic,
together with proofs of the specified properties.

Conventions of the embedding:
* Python `dict` values produced by `json.loads` are modelled as
  association lists with unique keys (duplicate keys in a JSON object
  replace, as in CPython).
* `json.loads` is modelled by `json_loads`, a fuel-bounded strict JSON
  parser over the character list of the input (including CPython's
  default acceptance of the `NaN` / `Infinity` / `-Infinity` extensions;
  numeric literals are kept as their lexed token, which is all the
  claims need).
* Message objects (the output of `convert_to_messages`) are modelled by
  the structure `Msg`: an optional `role` attribute, the always-present
  `type` attribute, an optional `name`, and a `content` that is either a
  string or some non-string value carried by its `str()` rendering.
-/

/-- JSON values as produced by `json.loads`. Objects are association
lists with unique keys (later duplicate keys replace earlier ones, as in
a Python dict); numbers keep their lexed literal. -/
inductive Json where
  | null : Json
  | bool : Bool → Json
  | num : String → Json
  | str : String → Json
  | arr : List Json → Json
  | obj : List (String × Json) → Json
deriving Repr

/-- Insert a key/value pair into a Python-dict association list:
an existing binding of the key is overwritten in place, otherwise the
pair is appended (CPython dict semantics, insertion ordered). -/
def dictInsert : List (String × Json) → String → Json → List (String × Json)
  | [], k, v => [(k, v)]
  | (k0, v0) :: rest, k, v =>
      if k0 = k then (k, v) :: rest else (k0, v0) :: dictInsert rest k v

/-- Python `key in d` for a dict modelled as an association list. -/
def hasKey : List (String × Json) → String → Bool
  | [], _ => false
  | (k0, _) :: rest, k => if k0 = k then true else hasKey rest k

/-- Python `d[key]` for a dict modelled as an association list,
made total by returning `Option`. -/
def lookupKey : List (String × Json) → String → Option Json
  | [], _ => none
  | (k0, v) :: rest, k => if k0 = k then some v else lookupKey rest k

/-- The JSON whitespace characters skipped by `json.loads`. -/
def isJsonWs (c : Char) : Bool :=
  c = ' ' || c = '\t' || c = '\n' || c = '\r'

/-- Skip leading JSON whitespace. -/
def skipWs : List Char → List Char
  | [] => []
  | c :: cs => if isJsonWs c then skipWs cs else c :: cs

/-- Strip an expected literal from the front of the input. -/
def stripLit : List Char → List Char → Option (List Char)
  | [], cs => some cs
  | _ :: _, [] => none
  | p :: ps, c :: cs => if c = p then stripLit ps cs else none

/-- Value of a hexadecimal digit. -/
def hexVal (c : Char) : Option Nat :=
  if '0' ≤ c ∧ c ≤ '9' then some (c.toNat - '0'.toNat)
  else if 'a' ≤ c ∧ c ≤ 'f' then some (c.toNat - 'a'.toNat + 10)
  else if 'A' ≤ c ∧ c ≤ 'F' then some (c.toNat - 'A'.toNat + 10)
  else none

/-- Parse exactly four hexadecimal digits (the `\uXXXX` escape). -/
def parseHex4 : List Char → Option (Nat × List Char)
  | a :: b :: c :: d :: rest =>
      match hexVal a, hexVal b, hexVal c, hexVal d with
      | some x, some y, some z, some w => some (x * 4096 + y * 256 + z * 16 + w, rest)
      | _, _, _, _ => none
  | _ => none

/-- Parse the body of a JSON string after the opening quote, handling
the escape sequences accepted by `json.loads` and rejecting unescaped
control characters (strict mode). Returns the decoded string and the
remaining input after the closing quote. -/
def parseStringBody : Nat → List Char → List Char → Option (String × List Char)
  | 0, _, _ => none
  | _ + 1, _, [] => none
  | fuel + 1, acc, c :: rest =>
      if c = '"' then some (String.mk acc.reverse, rest)
      else if c = '\\' then
        match rest with
        | [] => none
        | e :: rest2 =>
            if e = '"' then parseStringBody fuel ('"' :: acc) rest2
            else if e = '\\' then parseStringBody fuel ('\\' :: acc) rest2
            else if e = '/' then parseStringBody fuel ('/' :: acc) rest2
            else if e = 'b' then parseStringBody fuel (Char.ofNat 8 :: acc) rest2
            else if e = 'f' then parseStringBody fuel (Char.ofNat 12 :: acc) rest2
            else if e = 'n' then parseStringBody fuel ('\n' :: acc) rest2
            else if e = 'r' then parseStringBody fuel ('\r' :: acc) rest2
            else if e = 't' then parseStringBody fuel ('\t' :: acc) rest2
            else if e = 'u' then
              match parseHex4 rest2 with
              | some (n, rest3) => parseStringBody fuel (Char.ofNat n :: acc) rest3
              | none => none
            else none
      else if c.toNat < 32 then none
      else parseStringBody fuel (c :: acc) rest

/-- Take a maximal run of decimal digits. -/
def takeDigits : List Char → List Char × List Char
  | [] => ([], [])
  | c :: cs =>
      if c.isDigit then
        let p := takeDigits cs
        (c :: p.1, p.2)
      else ([], c :: cs)

/-- The integer part of a JSON number: `0` or a nonzero digit followed
by digits (no leading zeros), per the grammar used by `json.loads`. -/
def parseIntPart : List Char → Option (List Char × List Char)
  | [] => none
  | c :: cs =>
      if c = '0' then some ([c], cs)
      else if c.isDigit then
        let p := takeDigits cs
        some (c :: p.1, p.2)
      else none

/-- The optional fraction part `.digits` of a JSON number. -/
def parseFracPart (cs : List Char) : List Char × List Char :=
  match cs with
  | '.' :: rest =>
      match takeDigits rest with
      | ([], _) => ([], cs)
      | (ds, rest2) => ('.' :: ds, rest2)
  | _ => ([], cs)

/-- The optional exponent part `[eE][+-]?digits` of a JSON number. -/
def parseExpPart (cs : List Char) : List Char × List Char :=
  match cs with
  | e :: rest =>
      if e = 'e' ∨ e = 'E' then
        match rest with
        | s :: rest2 =>
            if s = '+' ∨ s = '-' then
              match takeDigits rest2 with
              | ([], _) => ([], cs)
              | (ds, rest3) => (e :: s :: ds, rest3)
            else
              match takeDigits rest with
              | ([], _) => ([], cs)
              | (ds, rest3) => (e :: ds, rest3)
        | [] => ([], cs)
      else ([], cs)
  | [] => ([], cs)

/-- Lex a JSON numeric literal (optionally signed), returning the token
and the remaining input. -/
def parseNumber (cs : List Char) : Option (String × List Char) :=
  match cs with
  | '-' :: rest =>
      match parseIntPart rest with
      | none => none
      | some (ip, rest2) =>
          let fp := parseFracPart rest2
          let ep := parseExpPart fp.2
          some (String.mk ('-' :: ip ++ fp.1 ++ ep.1), ep.2)
  | _ =>
      match parseIntPart cs with
      | none => none
      | some (ip, rest2) =>
          let fp := parseFracPart rest2
          let ep := parseExpPart fp.2
          some (String.mk (ip ++ fp.1 ++ ep.1), ep.2)

mutual

/-- Parse one JSON value (fuel-bounded; the fuel is ample for the
inputs considered). Mirrors the value scanner of `json.loads`,
including the default `NaN` / `Infinity` / `-Infinity` extensions. -/
def parseValue : Nat → List Char → Option (Json × List Char)
  | 0, _ => none
  | fuel + 1, cs =>
      match skipWs cs with
      | [] => none
      | c :: rest =>
          if c = '"' then
            match parseStringBody (rest.length + 1) [] rest with
            | some (s, r) => some (Json.str s, r)
            | none => none
          else if c = '{' then
            match skipWs rest with
            | '}' :: r2 => some (Json.obj [], r2)
            | cs2 => parseMembers fuel cs2 []
          else if c = '[' then
            match skipWs rest with
            | ']' :: r2 => some (Json.arr [], r2)
            | cs2 => parseItems fuel cs2 []
          else if c = 't' then
            match stripLit ['r', 'u', 'e'] rest with
            | some r => some (Json.bool true, r)
            | none => none
          else if c = 'f' then
            match stripLit ['a', 'l', 's', 'e'] rest with
            | some r => some (Json.bool false, r)
            | none => none
          else if c = 'n' then
            match stripLit ['u', 'l', 'l'] rest with
            | some r => some (Json.null, r)
            | none => none
          else if c = 'N' then
            match stripLit ['a', 'N'] rest with
            | some r => some (Json.num "NaN", r)
            | none => none
          else if c = 'I' then
            match stripLit ['n', 'f', 'i', 'n', 'i', 't', 'y'] rest with
            | some r => some (Json.num "Infinity", r)
            | none => none
          else if c = '-' then
            match stripLit ['I', 'n', 'f', 'i', 'n', 'i', 't', 'y'] rest with
            | some r => some (Json.num "-Infinity", r)
            | none =>
                match parseNumber (c :: rest) with
                | some (tok, r) => some (Json.num tok, r)
                | none => none
          else
            match parseNumber (c :: rest) with
            | some (tok, r) => some (Json.num tok, r)
            | none => none

/-- Parse the items of a nonempty JSON array after the opening bracket. -/
def parseItems : Nat → List Char → List Json → Option (Json × List Char)
  | 0, _, _ => none
  | fuel + 1, cs, acc =>
      match parseValue fuel cs with
      | none => none
      | some (v, r) =>
          match skipWs r with
          | ',' :: r2 => parseItems fuel r2 (v :: acc)
          | ']' :: r2 => some (Json.arr (v :: acc).reverse, r2)
          | _ => none

/-- Parse the members of a nonempty JSON object after the opening brace;
duplicate keys replace earlier bindings as in a Python dict. -/
def parseMembers : Nat → List Char → List (String × Json) → Option (Json × List Char)
  | 0, _, _ => none
  | fuel + 1, cs, acc =>
      match skipWs cs with
      | '"' :: r =>
          match parseStringBody (r.length + 1) [] r with
          | none => none
          | some (k, r2) =>
              match skipWs r2 with
              | ':' :: r3 =>
                  match parseValue fuel r3 with
                  | none => none
                  | some (v, r4) =>
                      match skipWs r4 with
                      | ',' :: r5 => parseMembers fuel r5 (dictInsert acc k v)
                      | '}' :: r5 => some (Json.obj (dictInsert acc k v), r5)
                      | _ => none
              | _ => none
      | _ => none

end

/-- Model of Python `json.loads`: strict parse of a complete document,
with surrounding whitespace allowed and trailing garbage rejected.
`none` models a raised `json.JSONDecodeError`. -/
def json_loads (s : String) : Option Json :=
  let cs := s.toList
  match parseValue (2 * cs.length + 2) cs with
  | some (v, rest) => if (skipWs rest).isEmpty then some v else none
  | none => none

/-- The `content` attribute of a message object: either a string, or a
non-string value (e.g. a list of content blocks) carried here by its
Python `str()` rendering, which is what the code coerces it to. -/
inductive Content where
  | text : String → Content
  | blocks : String → Content
deriving Repr, DecidableEq

/-- The coercion `text if isinstance(text, str) else str(text)` applied
to a message content. -/
def contentText : Content → String
  | Content.text s => s
  | Content.blocks r => r

/-- A message object as produced by `convert_to_messages`: an optional
`role` attribute, the always-present `type` attribute, an optional
`name` (Python falsiness of `None` and `""` is handled at use sites),
and the content. -/
structure Msg where
  role : Option String := none
  type : String
  name : Option String := none
  content : Content
deriving Repr, DecidableEq

/-- The value bound to the `"supervisor"` key of a graph output, when
present: either a dict (with or without a `"messages"` entry) or a
non-dict value. -/
inductive SupervisorVal where
  | dict : Option (List Msg) → SupervisorVal
  | nondict : SupervisorVal
deriving Repr, DecidableEq

/-- A graph output dict as consumed by `get_history_from_output`:
optional `"supervisor"` and `"messages"` keys (messages are modelled
already in their converted form, see `convert_to_messages`). -/
structure GraphOutput where
  supervisor : Option SupervisorVal := none
  messages : Option (List Msg) := none
deriving Repr, DecidableEq

/-- `get_history_from_output` of `src/graph_app.py`: prefer
`graph_output["supervisor"]["messages"]` when `"supervisor"` is present
and a dict, else `graph_output["messages"]`, defaulting to `[]`. -/
def get_history_from_output (g : GraphOutput) : List Msg :=
  match g.supervisor with
  | some (SupervisorVal.dict m) => m.getD []
  | some SupervisorVal.nondict => g.messages.getD []
  | none => g.messages.getD []

/-- `convert_to_messages` of langchain: turns raw history entries into
message objects. The embedding carries histories already in converted
form, so this is the identity on `List Msg`. -/
def convert_to_messages (history : List Msg) : List Msg := history

/-- The empty-result fallback `\x7b"stocks": []\x7d`. -/
def fallbackResult : List (String × Json) := [("stocks", Json.arr [])]

/-- `extract_final_text` of `src/graph_app.py`: take the last message of
the history (falling back on an empty history), coerce its content to
text, `json.loads` it, and return the parsed value only when it is a
dict containing a `"stocks"` key; any decode error or other shape yields
`fallbackResult`. -/
def extract_final_text (g : GraphOutput) : List (String × Json) :=
  match (convert_to_messages (get_history_from_output g)).getLast? with
  | none => fallbackResult
  | some last =>
      match json_loads (contentText last.content) with
      | some (Json.obj fs) => if hasKey fs "stocks" then fs else fallbackResult
      | some _ => fallbackResult
      | none => fallbackResult

/-- One entry of the timeline built by `build_timeline_with_result`. -/
structure TimelineEntry where
  step : Nat
  role : String
  agent : String
  content : String
  label : String
deriving Repr, DecidableEq

/-- The role read in the timeline loop:
`getattr(msg, "role", getattr(msg, "type", "")) or "ai"`. -/
def roleOf (m : Msg) : String :=
  let r := m.role.getD m.type
  if r = "" then "ai" else r

/-- The agent name read in the timeline loop: `getattr(msg, "name",
None)`, replaced by `"user"` / `"unknown"` when falsy. -/
def agentOf (m : Msg) : String :=
  let a := m.name.getD ""
  if a = "" then (if roleOf m = "human" then "user" else "unknown") else a

/-- One iteration of the timeline loop of `build_timeline_with_result`:
the entry appended for message `m` at enumeration index `idx`. -/
def timelineEntry (idx : Nat) (m : Msg) : TimelineEntry :=
  let role := roleOf m
  let agent := agentOf m
  let content := contentText m.content
  let label :=
    if role = "human" ∧ idx = 0 then "User query"
    else if agent = "stock_finder_agent" then "Stock selection"
    else if agent = "market_data_agent" then "Market data fetch"
    else if agent = "news_analyst_agent" then "News and sentiment"
    else if agent = "price_recommender_agent" then "Final JSON"
    else "Message"
  { step := idx, role := role, agent := agent, content := content, label := label }

/-- The timeline loop `for idx, msg in enumerate(messages)`, written as
a recursion carrying the enumeration index. -/
def buildFrom (idx : Nat) : List Msg → List TimelineEntry
  | [] => []
  | m :: ms => timelineEntry idx m :: buildFrom (idx + 1) ms

/-- The timeline produced from a converted message list. -/
def build_timeline (messages : List Msg) : List TimelineEntry :=
  buildFrom 0 messages

/-- The pair returned by `build_timeline_with_result`. -/
structure TimelineBundle where
  timeline : List TimelineEntry
  final : List (String × Json)
deriving Repr

/-- `build_timeline_with_result` of `src/graph_app.py`: the timeline of
all converted history messages, plus the extracted final result. -/
def build_timeline_with_result (g : GraphOutput) : TimelineBundle :=
  { timeline := build_timeline (convert_to_messages (get_history_from_output g))
  , final := extract_final_text g }

/-- The `TimelineEvent` pydantic model of `src/api.py`. -/
structure TimelineEvent where
  step : Nat
  role : String
  agent : String
  content : String
  label : Option String := none
deriving Repr, DecidableEq

/-- The `RecommendRequest` pydantic model of `src/api.py`. -/
structure RecommendRequest where
  query : String
  intent : String
deriving Repr, DecidableEq

/-- An `HTTPException(status_code, detail)` raised by the endpoint. -/
inductive ApiError where
  | httpError : Nat → String → ApiError
deriving Repr, DecidableEq

/-- The `RecommendResponse` returned by the endpoint: the stocks list
handed to the response model, and the validated timeline events. -/
structure RecommendResponse where
  stocks : List Json
  timeline : List TimelineEvent
deriving Repr

/-- The seed entry of the `inputs` dict built by `recommend`:
a raw `\x7brole, content\x7d` message dict. -/
structure SeedMessage where
  role : String
  content : String
deriving Repr, DecidableEq

/-- The `config=\x7b"recursion_limit": 6\x7d` passed to `graph.ainvoke`
in `src/api.py`. -/
def recursion_limit : Nat := 6

/-- The post-pipeline part of `recommend` in `src/api.py` (lines
112-131): take the bundle from `build_timeline_with_result`, replace
`data` by `\x7b"stocks": []\x7d` unless it has a `"stocks"` key bound to a
list, validate the raw timeline entries (the `TimelineEvent(**evt)`
comprehension, whose pydantic validation is abstracted as the `validate`
argument), degrading to an empty timeline if any entry fails, and
respond with `data["stocks"]` plus the timeline. The final inner match
is total; its default branch is unreachable after the guard. -/
def recommend_post (g : GraphOutput)
    (validate : TimelineEntry → Option TimelineEvent) : RecommendResponse :=
  let bundle := build_timeline_with_result g
  let data0 := bundle.final
  let timeline_raw := bundle.timeline
  let data :=
    match lookupKey data0 "stocks" with
    | some (Json.arr _) => data0
    | _ => fallbackResult
  let timeline :=
    match timeline_raw.mapM validate with
    | some evts => evts
    | none => []
  { stocks :=
      match lookupKey data "stocks" with
      | some (Json.arr xs) => xs
      | _ => []
  , timeline := timeline }

/-- Python whitespace as stripped by `str.strip()` (the ASCII subset,
which is all the intents here can contain). -/
def isPyWs (c : Char) : Bool :=
  c = ' ' || c = '\t' || c = '\n' || c = '\r' || c = Char.ofNat 11 || c = Char.ofNat 12

/-- Python `str.strip()`: drop whitespace from both ends. -/
def pyStrip (s : String) : String :=
  String.mk (((s.data.dropWhile isPyWs).reverse.dropWhile isPyWs).reverse)

/-- Python `str.upper()` (ASCII case mapping, which is all the intent
comparison against `BUY` / `SELL` needs). -/
def pyUpper (s : String) : String :=
  String.mk (s.data.map Char.toUpper)

/-- The `recommend` endpoint of `src/api.py` after startup: normalize
the intent (`strip` then `upper`, ASCII here), reject intents outside
\x7bBUY, SELL\x7d with a 400 before anything else runs, otherwise seed the
pipeline with the single user message and post-process its output. The
graph invocation is abstracted as the `pipeline` argument. -/
def recommend (pipeline : List SeedMessage → GraphOutput)
    (validate : TimelineEntry → Option TimelineEvent)
    (req : RecommendRequest) : Except ApiError RecommendResponse :=
  let intent_upper := pyUpper (pyStrip req.intent)
  if ¬(intent_upper = "BUY" ∨ intent_upper = "SELL") then
    Except.error (ApiError.httpError 400 "intent must be \x27buy\x27 or \x27sell\x27")
  else
    let inputs : List SeedMessage :=
      [{ role := "user"
       , content := "User intent: " ++ intent_upper ++ ". User query: " ++ req.query }]
    let graph_output := pipeline inputs
    Except.ok (recommend_post graph_output validate)

/-- The seed message list built by `recommend` for an accepted request
(named so the theorems can speak about what the pipeline receives). -/
def seed_inputs (req : RecommendRequest) : List SeedMessage :=
  [{ role := "user"
   , content := "User intent: " ++ pyUpper (pyStrip req.intent) ++ ". User query: " ++ req.query }]

/-- Modelled from the spec: the supervisor dispatch loop under a step
budget. The loop itself lives in the langgraph runtime (only its caller,
`graph.ainvoke(..., recursion_limit=6)`, is in `src/api.py`), so it is
modelled from the spec's words: each step the supervisor either stops
(`none`) or produces the next conversation state; the budget is a hard
ceiling on the number of dispatched steps, and on exhaustion the run
returns whatever state exists at that point. -/
def run_with_budget (step : List Msg → Option (List Msg)) :
    Nat → List Msg → List Msg
  | 0, s => s
  | b + 1, s =>
      match step s with
      | none => s
      | some s2 => run_with_budget step b s2

/-- Plain n-fold application of a total step function. -/
def applyN (f : List Msg → List Msg) : Nat → List Msg → List Msg
  | 0, s => s
  | n + 1, s => applyN f n (f s)

/-- The text of the last message of a conversation (empty when there is
none); the string the Result Extractor hands to `json.loads`. -/
def lastText (msgs : List Msg) : String :=
  match msgs.getLast? with
  | some m => contentText m.content
  | none => ""

/-- A typical final message: content `s`, authored by the price
recommender agent. -/
def finalMsg (s : String) : Msg :=
  { role := none, type := "ai", name := some "price_recommender_agent"
  , content := Content.text s }

/-- A flat graph output whose history is the single message `finalMsg s`. -/
def outputWithLast (s : String) : GraphOutput :=
  { supervisor := none, messages := some [finalMsg s] }

/-- A graph output whose final message carries `\x7b"stocks": 5\x7d`:
valid JSON, a dict with a `"stocks"` key, but the value is not a list. -/
def nonSeqOutput : GraphOutput := outputWithLast "\x7b\"stocks\": 5\x7d"

/-- A graph output whose final message carries `\x7b"stocks": ["AAPL"]\x7d`. -/
def roundtripOutput : GraphOutput := outputWithLast "\x7b\"stocks\": [\"AAPL\"]\x7d"

/-- A supervisor routing message preceding the first human message. -/
def aiRouting : Msg :=
  { role := none, type := "ai", name := none, content := Content.text "routing" }

/-- A human-role message that is not at index 0 and carries an agent
name mapped to another label. -/
def humanNamed : Msg :=
  { role := none, type := "human", name := some "stock_finder_agent"
  , content := Content.text "hello" }

/-- The always-succeeding timeline validation: the conversion pydantic
performs when every entry is well formed (which the builder guarantees
for its own entries). -/
def validateOk (e : TimelineEntry) : Option TimelineEvent :=
  some { step := e.step, role := e.role, agent := e.agent
       , content := e.content, label := some e.label }

/-- A timeline validation that fails on every entry, modelling a
pydantic validation error inside the conversion comprehension. -/
def validateFail (_e : TimelineEntry) : Option TimelineEvent := none

/-- A pipeline stub returning the empty graph output. -/
def pipelineEmpty (_inputs : List SeedMessage) : GraphOutput := {}

/-- A second, different pipeline stub. -/
def pipelineAlt (_inputs : List SeedMessage) : GraphOutput := roundtripOutput

/-- One step appended by the forced supervisor used in the step-budget
witness. -/
def stepMsg : Msg :=
  { role := none, type := "ai", name := none, content := Content.text "step" }

/-- A supervisor step that always wants to dispatch another agent. -/
def forcedNext (s : List Msg) : List Msg := s ++ [stepMsg]

/-- The `Option`-valued view of `forcedNext`: never signals stop. -/
def forcedStep (s : List Msg) : Option (List Msg) := some (forcedNext s)

/-- A value bound to a key is found by membership: `d[k]` succeeding
implies `k in d`. -/
theorem hasKey_of_lookup (fs : List (String × Json)) (k : String) (j : Json)
    (h : lookupKey fs k = some j) : hasKey fs k = true := by
  induction fs with
  | nil => simp [lookupKey] at h
  | cons p rest ih =>
      obtain ⟨k0, v⟩ := p
      by_cases hk : k0 = k
      · simp [hasKey, hk]
      · simp only [lookupKey, if_neg hk] at h
        simp only [hasKey, if_neg hk]
        exact ih h

/-- String concatenation is associative. -/
theorem strAppendAssoc (a b c : String) : a ++ b ++ c = a ++ (b ++ c) := by
  cases a with
  | mk la =>
      cases b with
      | mk lb =>
          cases c with
          | mk lc =>
              show String.mk (la ++ lb ++ lc) = String.mk (la ++ (lb ++ lc))
              rw [List.append_assoc]

/-- C1 counterexample: on the final message `\x7b"stocks": 5\x7d` — valid
JSON whose `stocks` value is not a sequence — `extract_final_text` does
NOT return the empty-list fallback: it passes the parsed dict through
unchanged, so the claimed sequence-shape check does not happen in the
Extractor. -/
theorem extract_final_text_nonlist_passthrough :
    extract_final_text nonSeqOutput = [("stocks", Json.num "5")]
    ∧ (∀ xs, lookupKey (extract_final_text nonSeqOutput) "stocks" ≠ some (Json.arr xs))
    ∧ extract_final_text nonSeqOutput ≠ fallbackResult := by
  refine ⟨rfl, ?_, ?_⟩
  · intro xs h
    rw [show extract_final_text nonSeqOutput = [("stocks", Json.num "5")] from rfl] at h
    simp [lookupKey] at h
  · intro h
    rw [show extract_final_text nonSeqOutput = [("stocks", Json.num "5")] from rfl] at h
    simp [fallbackResult] at h

/-- C1 (amended): for a final conversation with last message `last`, the
Result Extractor accepts the content exactly when it parses as strict
JSON to a mapping containing a `"stocks"` key — regardless of the shape
of the value under that key; any parse error, non-mapping result, or
missing key yields `\x7b"stocks": []\x7d`, and the function is total (never
raises). The sequence-shape check on the `stocks` value happens later in
the endpoint layer, not here. -/
theorem extract_final_text_accepts_iff (g : GraphOutput) (last : Msg)
    (hlast : (convert_to_messages (get_history_from_output g)).getLast? = some last) :
    (∀ fs, json_loads (contentText last.content) = some (Json.obj fs) →
        hasKey fs "stocks" = true → extract_final_text g = fs)
    ∧ (∀ fs, json_loads (contentText last.content) = some (Json.obj fs) →
        hasKey fs "stocks" = false → extract_final_text g = fallbackResult)
    ∧ (json_loads (contentText last.content) = none →
        extract_final_text g = fallbackResult)
    ∧ (∀ j, json_loads (contentText last.content) = some j →
        (∀ fs, j ≠ Json.obj fs) → extract_final_text g = fallbackResult) := by
  refine ⟨?_, ?_, ?_, ?_⟩
  · intro fs hp hk
    unfold extract_final_text
    rw [hlast]
    simp [hp, hk]
  · intro fs hp hk
    unfold extract_final_text
    rw [hlast]
    simp [hp, hk]
  · intro hp
    unfold extract_final_text
    rw [hlast]
    simp [hp]
  · intro j hp hne
    unfold extract_final_text
    rw [hlast]
    cases j with
    | obj fs => exact absurd rfl (hne fs)
    | null => simp [hp]
    | bool b => simp [hp]
    | num s => simp [hp]
    | str s => simp [hp]
    | arr xs => simp [hp]

/-- C1 witness: a mapping whose `stocks` value is itself a dict (not a
sequence) is accepted and returned by the Extractor. -/
theorem extract_final_text_accepts_iff_witness :
    extract_final_text (outputWithLast "\x7b\"stocks\": \x7b\x7d\x7d") =
      [("stocks", Json.obj [])] :=
  (extract_final_text_accepts_iff (outputWithLast "\x7b\"stocks\": \x7b\x7d\x7d")
      (finalMsg "\x7b\"stocks\": \x7b\x7d\x7d") rfl).1 [("stocks", Json.obj [])] rfl rfl

/-- C2: when the last message of the final conversation is valid JSON of
the form `\x7b"stocks": [...]\x7d` (a mapping binding `"stocks"` to an
array), the Result Extractor returns exactly the parsed object
unchanged. -/
theorem extract_final_text_roundtrip (g : GraphOutput) (last : Msg)
    (fs : List (String × Json)) (xs : List Json)
    (hlast : (convert_to_messages (get_history_from_output g)).getLast? = some last)
    (hparse : json_loads (contentText last.content) = some (Json.obj fs))
    (hstocks : lookupKey fs "stocks" = some (Json.arr xs)) :
    extract_final_text g = fs := by
  have hk : hasKey fs "stocks" = true := hasKey_of_lookup fs "stocks" _ hstocks
  unfold extract_final_text
  rw [hlast]
  simp [hparse, hk]

/-- C2 witness: the concrete final message `\x7b"stocks": ["AAPL"]\x7d`
round-trips through the Extractor. -/
theorem extract_final_text_roundtrip_witness :
    extract_final_text roundtripOutput = [("stocks", Json.arr [Json.str "AAPL"])] :=
  extract_final_text_roundtrip roundtripOutput (finalMsg "\x7b\"stocks\": [\"AAPL\"]\x7d")
    [("stocks", Json.arr [Json.str "AAPL"])] [Json.str "AAPL"] rfl rfl rfl

/-- C10: on an empty message history — in particular on a graph output
with neither a `supervisor` sub-dict nor a `messages` key —
`extract_final_text` returns `\x7b"stocks": []\x7d` without indexing the
last message. -/
theorem extract_final_text_empty_history (g : GraphOutput) :
    (g.supervisor = none → g.messages = none → extract_final_text g = fallbackResult)
    ∧ (get_history_from_output g = [] → extract_final_text g = fallbackResult) := by
  have h2 : get_history_from_output g = [] → extract_final_text g = fallbackResult := by
    intro h
    simp [extract_final_text, convert_to_messages, h]
  refine ⟨?_, h2⟩
  intro hs hm
  exact h2 (by simp [get_history_from_output, hs, hm])

/-- C10 witness: the fully empty graph output yields the fallback. -/
theorem extract_final_text_empty_history_witness :
    extract_final_text { supervisor := none, messages := none } = fallbackResult :=
  (extract_final_text_empty_history { supervisor := none, messages := none }).1 rfl rfl

/-- The timeline loop yields one entry per remaining message. -/
theorem buildFrom_length (idx : Nat) (ms : List Msg) :
    (buildFrom idx ms).length = ms.length := by
  induction ms generalizing idx with
  | nil => rfl
  | cons m ms ih => simp [buildFrom, ih]

/-- The entry at position `i` of the timeline loop started at index
`idx` is the entry built for message `i` with step index `idx + i`. -/
theorem buildFrom_get? (idx i : Nat) (ms : List Msg) :
    (buildFrom idx ms).get? i = (ms.get? i).map (timelineEntry (idx + i)) := by
  induction ms generalizing idx i with
  | nil => simp [buildFrom]
  | cons m ms ih =>
      cases i with
      | zero => simp [buildFrom]
      | succ n =>
          have harith : idx + 1 + n = idx + (n + 1) := by omega
          simp only [buildFrom, List.get?]
          rw [ih (idx + 1) n, harith]

/-- C3: the Timeline Builder produces exactly one timeline entry per
input message, in message order, and the entry at position `i` is built
from message `i` with step index exactly `i` (so the step indices are
`0, 1, ..., n-1`). -/
theorem timeline_one_entry_per_message (messages : List Msg) :
    (build_timeline messages).length = messages.length
    ∧ (∀ i, (build_timeline messages).get? i = (messages.get? i).map (timelineEntry i))
    ∧ (∀ i e, (build_timeline messages).get? i = some e → e.step = i) := by
  have hget : ∀ i, (build_timeline messages).get? i =
      (messages.get? i).map (timelineEntry i) := by
    intro i
    have h := buildFrom_get? 0 i messages
    rwa [Nat.zero_add] at h
  refine ⟨buildFrom_length 0 messages, hget, ?_⟩
  intro i e h
  rw [hget i] at h
  cases hm : messages.get? i with
  | none => rw [hm] at h; simp at h
  | some m =>
      rw [hm] at h
      simp only [Option.map_some'] at h
      have he : timelineEntry i m = e := Option.some.inj h
      rw [← he]
      rfl

/-- C3 witness: a two-message history yields two entries with step
indices 0 and 1. -/
theorem timeline_one_entry_per_message_witness :
    (build_timeline [finalMsg "a", finalMsg "b"]).length =
        ([finalMsg "a", finalMsg "b"] : List Msg).length
    ∧ (build_timeline [finalMsg "a", finalMsg "b"]).get? 1 =
        some (timelineEntry 1 (finalMsg "b"))
    ∧ (timelineEntry 1 (finalMsg "b")).step = 1 := by
  refine ⟨(timeline_one_entry_per_message [finalMsg "a", finalMsg "b"]).1, ?_, ?_⟩
  · rw [(timeline_one_entry_per_message [finalMsg "a", finalMsg "b"]).2.1 1]
    rfl
  · exact (timeline_one_entry_per_message [finalMsg "a", finalMsg "b"]).2.2 1
      (timelineEntry 1 (finalMsg "b"))
      ((timeline_one_entry_per_message [finalMsg "a", finalMsg "b"]).2.1 1)

/-- C4 counterexample: in the history `[aiRouting, humanNamed]` the
first human message sits at index 1; the code labels it by the
agent-name mapping (`"Stock selection"`), not `"User query"` — the
`"User query"` label is tied to index 0, not to being the first human
message. -/
theorem first_human_label_counterexample :
    roleOf aiRouting ≠ "human"
    ∧ roleOf humanNamed = "human"
    ∧ (build_timeline [aiRouting, humanNamed]).get? 1 =
        some { step := 1, role := "human", agent := "stock_finder_agent"
             , content := "hello", label := "Stock selection" }
    ∧ ("Stock selection" : String) ≠ "User query" := by
  refine ⟨by decide, rfl, rfl, by decide⟩

/-- C4 (amended): the message at index 0, when its role is human, is
always labeled `"User query"`, regardless of the agent-name-to-label
mapping; human messages at later indices instead receive the
agent-mapping label. -/
theorem index_zero_human_labeled_user_query (messages : List Msg) (m : Msg)
    (h0 : messages.get? 0 = some m) (hrole : roleOf m = "human") :
    (build_timeline messages).get? 0 = some (timelineEntry 0 m)
    ∧ (timelineEntry 0 m).label = "User query" := by
  constructor
  · have h := buildFrom_get? 0 0 messages
    rw [build_timeline, h, h0]
    rfl
  · simp [timelineEntry, hrole]

/-- C4 witness: a history whose first message is human and carries the
agent name `stock_finder_agent` is still labeled `"User query"`. -/
theorem index_zero_human_labeled_user_query_witness :
    (build_timeline [humanNamed]).get? 0 = some (timelineEntry 0 humanNamed)
    ∧ (timelineEntry 0 humanNamed).label = "User query" :=
  index_zero_human_labeled_user_query [humanNamed] humanNamed rfl rfl

/-- C5: the endpoint's timeline handling is a defensive boundary — the
stocks part of the response is the same whatever the timeline
validation does (so a conversion failure never blocks returning the
Recommendation), a failing validation degrades the timeline to `[]`
locally, and a succeeding validation passes the converted events
through. The response is produced in every case: nothing propagates to
the caller. -/
theorem timeline_failure_never_blocks_stocks (g : GraphOutput)
    (v1 v2 : TimelineEntry → Option TimelineEvent) :
    (recommend_post g v1).stocks = (recommend_post g v2).stocks
    ∧ ((build_timeline_with_result g).timeline.mapM v1 = none →
        (recommend_post g v1).timeline = [])
    ∧ (∀ evts, (build_timeline_with_result g).timeline.mapM v1 = some evts →
        (recommend_post g v1).timeline = evts) := by
  refine ⟨rfl, ?_, ?_⟩
  · intro h
    simp only [recommend_post]
    rw [h]
  · intro evts h
    simp only [recommend_post]
    rw [h]

/-- C5 witness: on a concrete one-message output, a failing conversion
yields an empty timeline while the stocks are exactly those a
succeeding conversion returns. -/
theorem timeline_failure_never_blocks_stocks_witness :
    (recommend_post roundtripOutput validateFail).stocks =
      (recommend_post roundtripOutput validateOk).stocks
    ∧ (recommend_post roundtripOutput validateFail).timeline = [] := by
  refine ⟨(timeline_failure_never_blocks_stocks roundtripOutput validateFail validateOk).1, ?_⟩
  exact (timeline_failure_never_blocks_stocks roundtripOutput validateFail validateOk).2.1 rfl

/-- C6: an intent whose stripped uppercase form is outside \x7bBUY, SELL\x7d
is rejected with a 400 error before the pipeline is invoked: the result
is the same error for every pipeline and every validation, so no
conversation state is seeded and no agent, backend, or tool runs. -/
theorem invalid_intent_rejected_before_pipeline (req : RecommendRequest)
    (h : ¬(pyUpper (pyStrip req.intent) = "BUY" ∨ pyUpper (pyStrip req.intent) = "SELL")) :
    (∀ pipeline validate,
        recommend pipeline validate req =
          Except.error (ApiError.httpError 400 "intent must be \x27buy\x27 or \x27sell\x27"))
    ∧ (∀ p1 p2 v1 v2, recommend p1 v1 req = recommend p2 v2 req) := by
  have herr : ∀ pipeline validate,
      recommend pipeline validate req =
        Except.error (ApiError.httpError 400 "intent must be \x27buy\x27 or \x27sell\x27") := by
    intro pipeline validate
    simp only [recommend]
    rw [if_pos h]
  refine ⟨herr, ?_⟩
  intro p1 p2 v1 v2
  rw [herr p1 v1, herr p2 v2]

/-- C6 witness: the intent `"hold"` is rejected with the 400 error, and
the outcome is independent of the pipeline behind the endpoint. -/
theorem invalid_intent_rejected_before_pipeline_witness :
    recommend pipelineEmpty validateOk { query := "pick two tech stocks", intent := "hold" } =
      Except.error (ApiError.httpError 400 "intent must be \x27buy\x27 or \x27sell\x27")
    ∧ recommend pipelineEmpty validateOk { query := "pick two tech stocks", intent := "hold" } =
        recommend pipelineAlt validateFail { query := "pick two tech stocks", intent := "hold" } := by
  have h := invalid_intent_rejected_before_pipeline
    { query := "pick two tech stocks", intent := "hold" } (by decide)
  exact ⟨h.1 pipelineEmpty validateOk, h.2 pipelineEmpty pipelineAlt validateOk validateFail⟩

/-- C7: an accepted request seeds the pipeline with exactly one
user-role message whose text is `"User intent: "` followed by the
uppercased stripped intent, then `". User query: "` followed by the
query verbatim; in particular the normalized intent is recoverable as a
prefix of the seed text. -/
theorem valid_intent_seeds_single_message (req : RecommendRequest)
    (pipeline : List SeedMessage → GraphOutput)
    (validate : TimelineEntry → Option TimelineEvent)
    (h : pyUpper (pyStrip req.intent) = "BUY" ∨ pyUpper (pyStrip req.intent) = "SELL") :
    recommend pipeline validate req =
      Except.ok (recommend_post (pipeline (seed_inputs req)) validate)
    ∧ seed_inputs req =
        [{ role := "user"
         , content := "User intent: " ++ pyUpper (pyStrip req.intent)
             ++ ". User query: " ++ req.query }]
    ∧ (∀ m, seed_inputs req = [m] →
        ∃ rest, m.content = ("User intent: " ++ pyUpper (pyStrip req.intent)) ++ rest) := by
  refine ⟨?_, rfl, ?_⟩
  · simp only [recommend, seed_inputs]
    rw [if_neg (by simp [h])]
  · intro m hm
    refine ⟨". User query: " ++ req.query, ?_⟩
    have hm2 : m = SeedMessage.mk "user"
        ("User intent: " ++ pyUpper (pyStrip req.intent) ++ ". User query: " ++ req.query) :=
      ((List.cons.inj hm).1).symm
    rw [hm2]
    exact strAppendAssoc _ _ _

/-- C7 witness: the request with query `"pick two tech stocks"` and
intent `" buy "` seeds the pipeline with the single normalized user
message `"User intent: BUY. User query: pick two tech stocks"`. -/
theorem valid_intent_seeds_single_message_witness :
    recommend pipelineEmpty validateOk { query := "pick two tech stocks", intent := " buy " } =
      Except.ok (recommend_post
        (pipelineEmpty (seed_inputs { query := "pick two tech stocks", intent := " buy " }))
        validateOk)
    ∧ seed_inputs { query := "pick two tech stocks", intent := " buy " } =
        [{ role := "user"
         , content := "User intent: BUY. User query: pick two tech stocks" }] := by
  have h := valid_intent_seeds_single_message
    { query := "pick two tech stocks", intent := " buy " } pipelineEmpty validateOk
    (Or.inl (by decide))
  refine ⟨h.1, ?_⟩
  rw [h.2.1]
  rfl

/-- Under a supervisor that always wants to dispatch, the budgeted run
is exactly the budget-fold application of the step function. -/
theorem run_with_budget_of_forced (step : List Msg → Option (List Msg))
    (f : List Msg → List Msg) (hstep : ∀ s, step s = some (f s)) :
    ∀ b s, run_with_budget step b s = applyN f b s := by
  intro b
  induction b with
  | zero => intro s; rfl
  | succ n ih =>
      intro s
      simp only [run_with_budget, applyN, hstep s]
      exact ih (f s)

/-- The Result Extractor applies its fallback to a flat output whose
last message does not parse as JSON. -/
theorem extract_flat_parse_fail (ms : List Msg)
    (h : json_loads (lastText ms) = none) :
    extract_final_text { supervisor := none, messages := some ms } = fallbackResult := by
  cases hms : ms.getLast? with
  | none =>
      have hnil : ms = [] := List.getLast?_eq_none_iff.mp hms
      exact (extract_final_text_empty_history
        { supervisor := none, messages := some ms }).2 (by simp [get_history_from_output, hnil])
  | some m =>
      have hc : lastText ms = contentText m.content := by
        unfold lastText
        rw [hms]
      rw [hc] at h
      unfold extract_final_text
      have hh : convert_to_messages
          (get_history_from_output { supervisor := none, messages := some ms }) = ms := rfl
      rw [hh, hms]
      simp [h]

/-- C8 (spec-modelled): the step budget of 6 passed as the recursion
limit is a hard ceiling on the supervisor loop. Even when the
supervisor would always dispatch another step (so it would dispatch a
7th), the run performs exactly 6 steps and terminates — it is a total
function returning the conversation state reached at step 6 — and the
Result Extractor applies its normal fallback logic to that truncated
state (here: when the truncated state's last message is not JSON, the
extraction yields the empty-list fallback). -/
theorem step_budget_hard_ceiling (step : List Msg → Option (List Msg))
    (f : List Msg → List Msg) (s0 : List Msg)
    (hstep : ∀ s, step s = some (f s)) :
    run_with_budget step recursion_limit s0 = applyN f recursion_limit s0
    ∧ (json_loads (lastText (applyN f recursion_limit s0)) = none →
        extract_final_text
          { supervisor := none, messages := some (applyN f recursion_limit s0) } =
          fallbackResult) := by
  refine ⟨run_with_budget_of_forced step f hstep recursion_limit s0, ?_⟩
  intro h
  exact extract_flat_parse_fail (applyN f recursion_limit s0) h

/-- C8 witness: the always-dispatching supervisor started on the empty
conversation stops after exactly 6 steps, and the Extractor returns the
fallback on the truncated state (its last message is not JSON). -/
theorem step_budget_hard_ceiling_witness :
    run_with_budget forcedStep recursion_limit [] = applyN forcedNext recursion_limit []
    ∧ extract_final_text
        { supervisor := none, messages := some (applyN forcedNext recursion_limit []) } =
        fallbackResult := by
  have h := step_budget_hard_ceiling forcedStep forcedNext [] (fun s => rfl)
  exact ⟨h.1, h.2 rfl⟩

/-- C9: the stocks handed to the HTTP response are always a list — when
the Extractor's result binds `"stocks"` to an array, the endpoint
returns exactly that array; when it binds `"stocks"` to a non-array
value, or lacks the key entirely, the endpoint replaces it with the
empty list before responding, so non-list `stocks` values never reach
the client. -/
theorem response_stocks_always_list (g : GraphOutput)
    (validate : TimelineEntry → Option TimelineEvent) :
    (∀ xs, lookupKey (extract_final_text g) "stocks" = some (Json.arr xs) →
        (recommend_post g validate).stocks = xs)
    ∧ (∀ j, lookupKey (extract_final_text g) "stocks" = some j →
        (∀ xs, j ≠ Json.arr xs) → (recommend_post g validate).stocks = [])
    ∧ (lookupKey (extract_final_text g) "stocks" = none →
        (recommend_post g validate).stocks = []) := by
  refine ⟨?_, ?_, ?_⟩
  · intro xs h
    simp [recommend_post, build_timeline_with_result, h]
  · intro j h hne
    cases j with
    | arr xs => exact absurd rfl (hne xs)
    | null => simp [recommend_post, build_timeline_with_result, h, fallbackResult, lookupKey]
    | bool b => simp [recommend_post, build_timeline_with_result, h, fallbackResult, lookupKey]
    | num s => simp [recommend_post, build_timeline_with_result, h, fallbackResult, lookupKey]
    | str s => simp [recommend_post, build_timeline_with_result, h, fallbackResult, lookupKey]
    | obj fs => simp [recommend_post, build_timeline_with_result, h, fallbackResult, lookupKey]
  · intro h
    simp [recommend_post, build_timeline_with_result, h, fallbackResult, lookupKey]

/-- C9 witness: on the graph output whose Extractor result binds
`"stocks"` to the non-list `5`, the endpoint responds with the empty
stocks list. -/
theorem response_stocks_always_list_witness :
    (recommend_post nonSeqOutput validateOk).stocks = [] :=
  (response_stocks_always_list nonSeqOutput validateOk).2.1 (Json.num "5") rfl
    (fun _ h => Json.noConfusion h)
